import Mathlib

/-!
Verification of the Agent-CLI repository against its specification.

The development shallowly embeds the parts of the code the claims are
about:

* `src/applier.py` — the `apply` function that performs anchored file
  edits on the local filesystem (modelled by `AgentCli.FS`,
  `AgentCli.applyOne`, `AgentCli.apply`);
* `src/main.py` — `extract_json` (robust JSON extraction from raw model
  output, with a faithful model of Python `json.loads` validity),
  the `request_files` / web-permission dispatch of `handle`, the
  run-policy gate for proposed commands, and the mission-mode
  continuation loop.

Strings are modelled as `List Char`; file paths as lists of path
components; the filesystem as an association list of files plus the set
of created directories.
-/

set_option maxRecDepth 10000

namespace AgentCli

/-- A filesystem path, as its list of components. -/
abbrev FilePath := List String

/-- Filesystem state: file contents keyed by path, plus the set of
directories that exist (represented as a list; membership is the
observable). -/
structure FS where
  files : List (FilePath × List Char)
  dirs : List FilePath
deriving DecidableEq

/-- One requested file change, as produced by the model:
`{"file": ..., "original": ..., "edited": ...}`. -/
structure Change where
  file : FilePath
  original : List Char
  edited : List Char
deriving DecidableEq

/-- Association-list lookup of a file's content. -/
def lookupFile : List (FilePath × List Char) → FilePath → Option (List Char)
  | [], _ => none
  | (q, v) :: rest, p => if p = q then some v else lookupFile rest p

/-- Association-list update (or insert) of a file's content. -/
def setFile : List (FilePath × List Char) → FilePath → List Char → List (FilePath × List Char)
  | [], p, v => [(p, v)]
  | (q, w) :: rest, p, v => if p = q then (p, v) :: rest else (q, w) :: setFile rest p v

/-- `p.read_text()` availability: content of the file at `p`, if present. -/
def readFile (fs : FS) (p : FilePath) : Option (List Char) :=
  lookupFile fs.files p

/-- `p.write_text(new)`: store `v` at path `p`. -/
def writeFile (fs : FS) (p : FilePath) (v : List Char) : FS :=
  { fs with files := setFile fs.files p v }

/-- The directories created by `p.parent.mkdir(parents=True)`: every
non-empty initial segment of the parent of `p`. -/
def parentDirs (p : FilePath) : List FilePath :=
  (List.range p.dropLast.length).map (fun k => p.dropLast.take (k + 1))

/-- `p.parent.mkdir(parents=True, exist_ok=True)`: record the parent
directories of `p` as existing. -/
def mkdirParents (fs : FS) (p : FilePath) : FS :=
  { fs with dirs := fs.dirs ++ parentDirs p }

/-- `startsWith s pat`: does `s` start with `pat`? -/
def startsWith : List Char → List Char → Bool
  | _, [] => true
  | [], _ :: _ => false
  | c :: cs, p :: ps => if c = p then startsWith cs ps else false

/-- Python `pat in s` for strings: does `pat` occur as a contiguous
substring of `s`? -/
def containsSub : List Char → List Char → Bool
  | [], pat => startsWith [] pat
  | c :: cs, pat => startsWith (c :: cs) pat || containsSub cs pat

/-- Number of positions of `s` at which `pat` occurs. -/
def countOcc : List Char → List Char → Nat
  | [], pat => if startsWith [] pat then 1 else 0
  | c :: cs, pat => (if startsWith (c :: cs) pat then 1 else 0) + countOcc cs pat

/-- Python `s.replace(pat, rep, 1)`: replace the first occurrence of
`pat` in `s` by `rep` (identity when `pat` does not occur). -/
def replaceFirst : List Char → List Char → List Char → List Char
  | [], pat, rep => if startsWith [] pat then rep else []
  | c :: cs, pat, rep =>
    if startsWith (c :: cs) pat then rep ++ (c :: cs).drop pat.length
    else c :: replaceFirst cs pat rep

/-- The body of the `for c in changes` loop of `apply` in
`src/applier.py`: create the parent directories, then either anchored
replacement (non-empty `original`, file exists), or full write.  A
mismatch (`original` non-empty but absent from the current content)
raises `RuntimeError(f"Mismatch in {c.file}")`; the error carries the
offending file and the filesystem state at the raise. -/
def applyOne (fs : FS) (c : Change) : Except (FilePath × FS) FS :=
  let fs1 := mkdirParents fs c.file
  match readFile fs1 c.file with
  | some t =>
    if c.original.isEmpty then Except.ok (writeFile fs1 c.file c.edited)
    else if containsSub t c.original then
      Except.ok (writeFile fs1 c.file (replaceFirst t c.original c.edited))
    else Except.error (c.file, fs1)
  | none => Except.ok (writeFile fs1 c.file c.edited)

/-- `apply(changes)` from `src/applier.py`: sequential, fail-fast. -/
def apply : FS → List Change → Except (FilePath × FS) FS
  | fs, [] => Except.ok fs
  | fs, c :: cs =>
    match applyOne fs c with
    | Except.ok fs1 => apply fs1 cs
    | Except.error e => Except.error e

/-- JSON whitespace, as accepted by Python `json.loads`. -/
def isWsChar (c : Char) : Bool := c = ' ' || c = '\t' || c = '\n' || c = '\r'

/-- Drop leading JSON whitespace. -/
def skipWs : List Char → List Char
  | [] => []
  | c :: cs => if isWsChar c then skipWs cs else c :: cs

/-- Decimal digit. -/
def isDigitChar (c : Char) : Bool := '0' ≤ c && c ≤ '9'

/-- Hexadecimal digit (for `\uXXXX` escapes). -/
def isHexChar (c : Char) : Bool :=
  isDigitChar c || ('a' ≤ c && c ≤ 'f') || ('A' ≤ c && c ≤ 'F')

/-- Drop leading decimal digits. -/
def dropDigits : List Char → List Char
  | [] => []
  | c :: cs => if isDigitChar c then dropDigits cs else c :: cs

/-- Parse the rest of a JSON string literal, after its opening quote.
Strict mode of Python `json.loads`: raw control characters are
rejected; escapes are the eight single-character ones plus `\uXXXX`.
Returns the input remaining after the closing quote. -/
def parseStringRest : List Char → Option (List Char)
  | [] => none
  | c :: cs =>
    if c = '"' then some cs
    else if c = '\\' then
      match cs with
      | [] => none
      | e :: es =>
        if e = '"' || e = '\\' || e = '/' || e = 'b' || e = 'f' ||
            e = 'n' || e = 'r' || e = 't' then parseStringRest es
        else if e = 'u' then
          match es with
          | h1 :: h2 :: h3 :: h4 :: r =>
            if isHexChar h1 && isHexChar h2 && isHexChar h3 && isHexChar h4 then
              parseStringRest r
            else none
          | _ => none
        else none
    else if c.toNat < 32 then none
    else parseStringRest cs

/-- After the integer part of a JSON number: optional fraction and
exponent (`(\.\d+)?([eE][+-]?\d+)?`).  When the fraction or exponent is
begun but malformed the whole parse fails, which gives the same
accept/reject verdict as Python's regex-based scanner (see the
development notes: the shorter regex match always leaves a character no
JSON context accepts). -/
def parseNumberRest (l : List Char) : Option (List Char) :=
  let fracDone : Option (List Char) :=
    match l with
    | '.' :: r =>
      (match r with
       | c :: _ => if isDigitChar c then some (dropDigits r) else none
       | [] => none)
    | _ => some l
  match fracDone with
  | none => none
  | some l2 =>
    match l2 with
    | e :: r =>
      if e = 'e' || e = 'E' then
        let r1 := match r with
          | s :: r2 => if s = '+' || s = '-' then r2 else r
          | [] => r
        match r1 with
        | c :: _ => if isDigitChar c then some (dropDigits r1) else none
        | [] => none
      else some l2
    | [] => some l2

/-- A JSON number: `-?(0|[1-9]\d*)(\.\d+)?([eE][+-]?\d+)?`. -/
def parseNumber : List Char → Option (List Char)
  | '-' :: r =>
    (match r with
     | '0' :: r2 => parseNumberRest r2
     | c :: r2 => if '1' ≤ c && c ≤ '9' then parseNumberRest (dropDigits r2) else none
     | [] => none)
  | '0' :: r2 => parseNumberRest r2
  | c :: r2 => if '1' ≤ c && c ≤ '9' then parseNumberRest (dropDigits r2) else none
  | [] => none

mutual

/-- Parse one JSON value (Python `json.loads` grammar, including the
non-standard `NaN`, `Infinity` and `-Infinity` constants that Python
accepts by default), returning the remaining input.  The `Nat` argument
is recursion fuel; `jsonValid` supplies enough for any input. -/
def parseValue : Nat → List Char → Option (List Char)
  | 0, _ => none
  | Nat.succ fuel, l =>
    match l with
    | '"' :: r => parseStringRest r
    | '{' :: r => parseObjectRest fuel r
    | '[' :: r => parseArrayRest fuel r
    | 'n' :: 'u' :: 'l' :: 'l' :: r => some r
    | 't' :: 'r' :: 'u' :: 'e' :: r => some r
    | 'f' :: 'a' :: 'l' :: 's' :: 'e' :: r => some r
    | 'N' :: 'a' :: 'N' :: r => some r
    | 'I' :: 'n' :: 'f' :: 'i' :: 'n' :: 'i' :: 't' :: 'y' :: r => some r
    | '-' :: 'I' :: 'n' :: 'f' :: 'i' :: 'n' :: 'i' :: 't' :: 'y' :: r => some r
    | _ => parseNumber l

/-- Parse the rest of a JSON object, after its opening brace. -/
def parseObjectRest : Nat → List Char → Option (List Char)
  | 0, _ => none
  | Nat.succ fuel, l =>
    match skipWs l with
    | '}' :: r => some r
    | '"' :: r => parseMembers fuel r
    | _ => none

/-- Parse the members of a JSON object, positioned just after the
opening quote of a key. -/
def parseMembers : Nat → List Char → Option (List Char)
  | 0, _ => none
  | Nat.succ fuel, l =>
    match parseStringRest l with
    | none => none
    | some r1 =>
      match skipWs r1 with
      | ':' :: r2 =>
        (match parseValue fuel (skipWs r2) with
         | none => none
         | some r3 =>
           match skipWs r3 with
           | '}' :: r4 => some r4
           | ',' :: r4 =>
             (match skipWs r4 with
              | '"' :: r5 => parseMembers fuel r5
              | _ => none)
           | _ => none)
      | _ => none

/-- Parse the rest of a JSON array, after its opening bracket. -/
def parseArrayRest : Nat → List Char → Option (List Char)
  | 0, _ => none
  | Nat.succ fuel, l =>
    match skipWs l with
    | ']' :: r => some r
    | _ => parseElements fuel (skipWs l)

/-- Parse the elements of a non-empty JSON array, positioned at the
first character of an element. -/
def parseElements : Nat → List Char → Option (List Char)
  | 0, _ => none
  | Nat.succ fuel, l =>
    match parseValue fuel l with
    | none => none
    | some r1 =>
      match skipWs r1 with
      | ']' :: r2 => some r2
      | ',' :: r2 => parseElements fuel (skipWs r2)
      | _ => none

end

/-- Python `json.loads(s)` succeeds: one JSON value surrounded only by
whitespace.  The fuel `3 * length + 3` dominates the recursion depth
(each unit of fuel spent between consecutive `parseValue` entries
consumes at least one character, at no more than three units per
character). -/
def jsonValid (l : List Char) : Bool :=
  match parseValue (3 * l.length + 3) (skipWs l) with
  | some r => (skipWs r).isEmpty
  | none => false

/-- Python slice `l[i:j]`. -/
def slice (l : List Char) (i j : Nat) : List Char := (l.drop i).take (j - i)

/-- Index of the last occurrence of `c` (Python `rfind`, as an
`Option`). -/
def lastIdxOf : List Char → Char → Option Nat
  | [], _ => none
  | x :: xs, c =>
    match lastIdxOf xs c with
    | some i => some (i + 1)
    | none => if x = c then some 0 else none

/-- The backward scan of `extract_json`: for `i` from `start + k` down
to `start + 1`, if `text[i] == '}'` and `text[start:i+1]` parses as
JSON, return that candidate. -/
def scanBack (text : List Char) (start : Nat) : Nat → Option (List Char)
  | 0 => none
  | k + 1 =>
    if text.getD (start + k + 1) ' ' = '}' ∧
        jsonValid (slice text start (start + k + 2)) = true then
      some (slice text start (start + k + 2))
    else scanBack text start k

/-- `extract_json` from `src/main.py`: locate the first `{`; scan
backward from the end for a `}` closing a valid JSON candidate; on
failure fall back to the slice up to the last `}` (or to the end when
there is no `}`). -/
def extract_json (text : List Char) : List Char :=
  match text.findIdx? (fun c => c = '{') with
  | none => text
  | some start =>
    match scanBack text start (text.length - 1 - start) with
    | some cand => cand
    | none =>
      match lastIdxOf text '}' with
      | some r => slice text start (r + 1)
      | none => text.drop start

/-- Number of pairs `i < j` such that `text[i:j+1]` is a brace-delimited
slice that parses as valid JSON — the count of JSON-object occurrences
in `text`. -/
def countValidObjSlices (text : List Char) : Nat :=
  ((List.range text.length).map (fun i =>
    ((List.range text.length).filter (fun j =>
      decide (i < j) && decide (text.getD i ' ' = '{') &&
      decide (text.getD j ' ' = '}') && jsonValid (slice text i (j + 1)))).length)).sum

/-- What `handle` does with proposed commands once the proposal is
accepted (`src/main.py`, the accept branch of the interaction loop). -/
inductive ExecMode where
  /-- `policy == "never"`: print a notice, run nothing. -/
  | skipAll
  /-- `policy == "always" or args.yes or cfg.is_mission_mode()`: run
  every command sequentially with `capture_output=True`. -/
  | runAllCaptured
  /-- Otherwise: ask `y/n` per command, run approved ones uncaptured. -/
  | askEach
deriving DecidableEq

/-- The run-policy gate of the accept branch: `"never"` is checked
first and short-circuits everything else. -/
def commandExecMode (policy : String) (argsYes missionMode : Bool) : ExecMode :=
  if policy = "never" then ExecMode.skipAll
  else if policy = "always" ∨ argsYes = true ∨ missionMode = true then ExecMode.runAllCaptured
  else ExecMode.askEach

/-- The commands actually run, given the gate's verdict and (for the
ask-each mode) the user's per-command answers. -/
def executedCommands (mode : ExecMode) (approve : List Char → Bool)
    (cmds : List (List Char)) : List (List Char) :=
  match mode with
  | ExecMode.skipAll => []
  | ExecMode.runAllCaptured => cmds
  | ExecMode.askEach => cmds.filter approve

/-- The parsed model response fields that drive `handle`'s
request-dispatch phase. -/
structure AgentResponse where
  request_files : List FilePath
  web_search : Option (List Char)
  web_browse : Option (List Char)
  search_project : Option (List Char)
deriving DecidableEq

/-- Mission data passed to the recursive `handle` call. -/
inductive MissionData where
  | files (ctx : List Char)
  | webResults (ctx : List Char)
  | projectResults (ctx : List Char)
deriving DecidableEq

/-- Outcome of the request-dispatch phase of `handle`. -/
inductive Outcome where
  /-- A recursive `handle(instruction, args, mission_data)` call: a new
  THINKING cycle. -/
  | rethink (instruction : List Char) (md : Option MissionData)
  /-- Fall through to plan display and the interaction loop. -/
  | proceed
deriving DecidableEq

/-- Externally observable side effects of the dispatch phase. -/
inductive Effect where
  | fileRead (p : FilePath)
  | webSearchFx (q : List Char)
  | webBrowseFx (u : List Char)
  | projectSearch (q : List Char)
deriving DecidableEq

/-- Render a path the way the Python code handles it (a single string). -/
def renderPath (p : FilePath) : List Char := (String.intercalate "/" p).data

/-- Python single-quote character (used by `repr` of a string list). -/
def squote : Char := Char.ofNat 39

/-- Join a list of strings with a separator. -/
def joinSep (sep : List Char) : List (List Char) → List Char
  | [] => []
  | [x] => x
  | x :: y :: xs => x ++ sep ++ joinSep sep (y :: xs)

/-- Python `str(requested_files)` for a list of path strings. -/
def pyReprPathList (ps : List FilePath) : List Char :=
  '[' :: joinSep ", ".data (ps.map (fun p => squote :: renderPath p ++ [squote])) ++ [']']

/-- The permission-denied notice appended to the instruction when
`request_files` is present but visibility is disabled. -/
def visDeniedNotice (files : List FilePath) : List Char :=
  "\n\nError: Permission denied. You requested ".data ++ pyReprPathList files ++
    " but full visibility is currently DISABLED. Ask the user to run `/visibility` to grant permission.".data

/-- The notice appended to the instruction when web search or browse is
requested but web browsing is disabled. -/
def webDeniedNotice : List Char :=
  "\n\nError: Web browsing is currently DISABLED. Ask the user to run `/web` to enable it if you need search or browsing capabilities.".data

/-- The `files_context` string built by the visibility-allowed branch:
one `--- path ---` block per requested file, with the file content or a
not-found message. -/
def buildFilesContext (fs : FS) (files : List FilePath) : List Char :=
  files.foldl (fun acc rf =>
    acc ++ "\n--- ".data ++ renderPath rf ++ " ---\n".data ++
      (match readFile fs rf with
       | some t => t
       | none => "Error: File not found.".data) ++ "\n".data) []

/-- The `context_update` string built by the web-allowed branch, where
`ws` and `wb` model the external `web_search` / `web_browse` calls. -/
def webContext (ws wb : List Char → List Char) (r : AgentResponse) : List Char :=
  (match r.web_search with
   | some q => "\nSearch Results for ".data ++ squote :: q ++ squote :: ":\n".data ++ ws q ++ "\n".data
   | none => []) ++
  (match r.web_browse with
   | some u => "\nContent of ".data ++ u ++ ":\n".data ++ wb u ++ "\n".data
   | none => [])

/-- Web effects of the web-allowed branch (search first, then browse). -/
def webEffects (r : AgentResponse) : List Effect :=
  (match r.web_search with
   | some q => [Effect.webSearchFx q]
   | none => []) ++
  (match r.web_browse with
   | some u => [Effect.webBrowseFx u]
   | none => [])

/-- The request-dispatch phase of `handle` (`src/main.py`): the
`request_files`, web-search/browse and `search_project` blocks, each
gated on `cfg.is_mission_mode() or is_plan_only`.  Parameters `ws`,
`wb`, `sp` model the external search functions.  Returns the control
outcome and the list of performed side effects. -/
def handleRequests (vis webAllowed mission planOnly : Bool)
    (ws wb sp : List Char → List Char) (fs : FS) (text : List Char)
    (r : AgentResponse) : Outcome × List Effect :=
  if (!r.request_files.isEmpty) && (mission || planOnly) then
    if vis then
      (Outcome.rethink text (some (MissionData.files (buildFilesContext fs r.request_files))),
        r.request_files.map Effect.fileRead)
    else (Outcome.rethink (text ++ visDeniedNotice r.request_files) none, [])
  else if (r.web_search.isSome || r.web_browse.isSome) && (mission || planOnly) then
    if webAllowed then
      (Outcome.rethink text (some (MissionData.webResults (webContext ws wb r))), webEffects r)
    else (Outcome.rethink (text ++ webDeniedNotice) none, [])
  else if r.search_project.isSome && (mission || planOnly) then
    match r.search_project with
    | some pat => (Outcome.rethink text (some (MissionData.projectResults (sp pat))),
        [Effect.projectSearch pat])
    | none => (Outcome.proceed, [])
  else (Outcome.proceed, [])

/-- `"MISSION COMPLETE" in data.get("plan", "").upper()`. -/
def hasCompletionMarker (plan : List Char) : Bool :=
  containsSub (plan.map Char.toUpper) "MISSION COMPLETE".data

/-- Whether the mission-mode continuation loop is still running after
`n` accepted steps, given the plan text each step's response carries:
step `n + 1` is reached exactly when step `n` was reached and its plan
lacked the completion marker (the recursive `handle(text, args)` call
at the end of the accept branch). -/
def missionActive (plans : Nat → List Char) : Nat → Bool
  | 0 => true
  | n + 1 => missionActive plans n && !hasCompletionMarker (plans n)

/-! ### Helper lemmas about the string primitives -/

theorem startsWith_append (p b : List Char) : startsWith (p ++ b) p = true := by
  induction p with
  | nil => cases b <;> simp [startsWith]
  | cons c cs ih => simp [startsWith, ih]

theorem replaceFirst_startsWith (s pat rep : List Char) (h : startsWith s pat = true) :
    replaceFirst s pat rep = rep ++ s.drop pat.length := by
  cases s with
  | nil =>
    cases pat with
    | nil => simp [replaceFirst, startsWith]
    | cons p ps => simp [startsWith] at h
  | cons c cs => simp [replaceFirst, h]

theorem countOcc_cons (c : Char) (s pat : List Char) :
    countOcc (c :: s) pat =
      (if startsWith (c :: s) pat then 1 else 0) + countOcc s pat := rfl

theorem replaceFirst_cons (c : Char) (s pat rep : List Char) :
    replaceFirst (c :: s) pat rep =
      if startsWith (c :: s) pat then rep ++ (c :: s).drop pat.length
      else c :: replaceFirst s pat rep := rfl

theorem containsSub_cons (c : Char) (s pat : List Char) :
    containsSub (c :: s) pat = (startsWith (c :: s) pat || containsSub s pat) := rfl

theorem countOcc_cons_ge (c : Char) (s pat : List Char) :
    countOcc s pat ≤ countOcc (c :: s) pat := by
  rw [countOcc_cons]; split <;> omega

theorem le_countOcc_of_startsWith (s pat : List Char) (h : startsWith s pat = true) :
    1 ≤ countOcc s pat := by
  cases s <;> simp [countOcc, h]

theorem one_le_countOcc (pat b : List Char) : ∀ a : List Char,
    1 ≤ countOcc (a ++ (pat ++ b)) pat
  | [] => le_countOcc_of_startsWith _ _ (startsWith_append pat b)
  | c :: cs => by
    rw [List.cons_append]
    exact le_trans (one_le_countOcc pat b cs) (countOcc_cons_ge _ _ _)

theorem containsSub_of_startsWith (s pat : List Char) (h : startsWith s pat = true) :
    containsSub s pat = true := by
  cases s <;> simp [containsSub, h]

theorem containsSub_decomp (pat b : List Char) : ∀ a : List Char,
    containsSub (a ++ (pat ++ b)) pat = true
  | [] => containsSub_of_startsWith _ _ (startsWith_append pat b)
  | c :: cs => by
    rw [List.cons_append, containsSub_cons, containsSub_decomp pat b cs, Bool.or_true]

theorem replaceFirst_unique (pat b rep : List Char) : ∀ a : List Char,
    countOcc (a ++ (pat ++ b)) pat = 1 →
    replaceFirst (a ++ (pat ++ b)) pat rep = a ++ (rep ++ b)
  | [], h => by
    rw [List.nil_append, List.nil_append,
      replaceFirst_startsWith _ _ _ (startsWith_append pat b)]
    exact congrArg (rep ++ ·) (List.drop_left pat b)
  | c :: cs, h => by
    rw [List.cons_append] at h ⊢
    cases hs : startsWith (c :: (cs ++ (pat ++ b))) pat with
    | true =>
      exfalso
      have h2 : 1 ≤ countOcc (cs ++ (pat ++ b)) pat := one_le_countOcc pat b cs
      rw [countOcc_cons, if_pos hs] at h
      omega
    | false =>
      have hneg : ¬ (startsWith (c :: (cs ++ (pat ++ b))) pat = true) := by
        rw [hs]; exact Bool.false_ne_true
      have htail : countOcc (cs ++ (pat ++ b)) pat = 1 := by
        rw [countOcc_cons, if_neg hneg] at h
        omega
      rw [replaceFirst_cons, if_neg hneg, replaceFirst_unique pat b rep cs htail,
        List.cons_append]

/-! ### Helper lemmas about the filesystem model -/

theorem lookupFile_setFile_self (l : List (FilePath × List Char)) (p : FilePath)
    (v : List Char) : lookupFile (setFile l p v) p = some v := by
  induction l with
  | nil => simp [setFile, lookupFile]
  | cons hd tl ih =>
    obtain ⟨q, w⟩ := hd
    by_cases h : p = q <;> simp [setFile, lookupFile, h, ih]

theorem lookupFile_setFile_other (l : List (FilePath × List Char)) (p q : FilePath)
    (v : List Char) (h : q ≠ p) : lookupFile (setFile l p v) q = lookupFile l q := by
  induction l with
  | nil => simp [setFile, lookupFile, h]
  | cons hd tl ih =>
    obtain ⟨r, w⟩ := hd
    by_cases h2 : p = r
    · subst h2; simp [setFile, lookupFile, h]
    · by_cases h3 : q = r <;> simp [setFile, lookupFile, h, h2, h3, ih]

theorem readFile_mkdirParents (fs : FS) (p q : FilePath) :
    readFile (mkdirParents fs p) q = readFile fs q := rfl

theorem mkdirParents_files (fs : FS) (p : FilePath) :
    (mkdirParents fs p).files = fs.files := rfl

theorem mem_dirs_mkdirParents (fs : FS) (p : FilePath) (d : FilePath)
    (h : d ∈ parentDirs p) : d ∈ (mkdirParents fs p).dirs := by
  simp only [mkdirParents, List.mem_append]
  exact Or.inr h

/-- Characterization of the loop body when the file exists and
`original` is non-empty: succeed replacing the first occurrence exactly
when `original` occurs, otherwise raise the mismatch error. -/
theorem applyOne_some_nonempty (fs : FS) (c : Change) (t : List Char)
    (hne : c.original ≠ [])
    (hread : readFile fs c.file = some t) :
    applyOne fs c =
      if containsSub t c.original then
        Except.ok (writeFile (mkdirParents fs c.file) c.file
          (replaceFirst t c.original c.edited))
      else Except.error (c.file, mkdirParents fs c.file) := by
  have hread1 : readFile (mkdirParents fs c.file) c.file = some t := by
    rw [readFile_mkdirParents]; exact hread
  have hemp : c.original.isEmpty = false := by
    cases ho : c.original with
    | nil => exact absurd ho hne
    | cons x xs => rfl
  simp [applyOne, hread1, hemp]

theorem apply_cons (fs : FS) (c : Change) (cs : List Change) :
    apply fs (c :: cs) =
      match applyOne fs c with
      | Except.ok fs1 => apply fs1 cs
      | Except.error e => Except.error e := rfl

theorem apply_append (fs : FS) (l1 l2 : List Change) :
    apply fs (l1 ++ l2) =
      match apply fs l1 with
      | Except.ok fs1 => apply fs1 l2
      | Except.error e => Except.error e := by
  induction l1 generalizing fs with
  | nil => simp [apply]
  | cons c cs ih =>
    rw [List.cons_append, apply_cons, apply_cons]
    cases applyOne fs c with
    | ok fs1 => simp [ih]
    | error e => simp

/-- Any error produced by the loop body names the change's file and the
state right after the `mkdir` — before any content write. -/
theorem applyOne_error_inv (fs : FS) (c : Change) (f : FilePath) (fs' : FS)
    (h : applyOne fs c = Except.error (f, fs')) :
    f = c.file ∧ fs' = mkdirParents fs c.file := by
  cases hr : readFile (mkdirParents fs c.file) c.file with
  | none =>
    have hok : applyOne fs c =
        Except.ok (writeFile (mkdirParents fs c.file) c.file c.edited) := by
      simp [applyOne, hr]
    rw [hok] at h; exact absurd h (by simp)
  | some t =>
    cases he : c.original.isEmpty with
    | true =>
      have hok : applyOne fs c =
          Except.ok (writeFile (mkdirParents fs c.file) c.file c.edited) := by
        simp [applyOne, hr, he]
      rw [hok] at h; exact absurd h (by simp)
    | false =>
      have hne : c.original ≠ [] := by
        cases ho : c.original with
        | nil => rw [ho] at he; simp at he
        | cons x xs => simp [ho]
      rw [applyOne_some_nonempty fs c t hne hr] at h
      cases hc : containsSub t c.original with
      | true => rw [hc, if_pos rfl] at h; exact absurd h (by simp)
      | false =>
        rw [hc, if_neg Bool.false_ne_true] at h
        simp only [Except.error.injEq, Prod.mk.injEq] at h
        exact ⟨h.1.symm, h.2.symm⟩

/-! ### Claims C1, C2, C3, C6, C10 (the applier) -/

/-- C1: if the non-empty `original` occurs exactly once in the existing
target file, `apply`'s loop body succeeds and the post-apply content is
the pre-apply content with that single occurrence replaced by `edited`,
unchanged elsewhere (and every other file is untouched). -/
theorem apply_unique_anchor_replaces (fs : FS) (c : Change) (a b : List Char)
    (hne : c.original ≠ [])
    (hread : readFile fs c.file = some (a ++ (c.original ++ b)))
    (honce : countOcc (a ++ (c.original ++ b)) c.original = 1) :
    applyOne fs c =
      Except.ok (writeFile (mkdirParents fs c.file) c.file (a ++ (c.edited ++ b))) ∧
    readFile (writeFile (mkdirParents fs c.file) c.file (a ++ (c.edited ++ b))) c.file =
      some (a ++ (c.edited ++ b)) ∧
    (∀ q, q ≠ c.file →
      readFile (writeFile (mkdirParents fs c.file) c.file (a ++ (c.edited ++ b))) q =
        readFile fs q) := by
  have hcont : containsSub (a ++ (c.original ++ b)) c.original = true :=
    containsSub_decomp c.original b a
  refine ⟨?_, ?_, ?_⟩
  · rw [applyOne_some_nonempty fs c _ hne hread, if_pos hcont,
      replaceFirst_unique c.original b c.edited a honce]
  · simp [readFile, writeFile, lookupFile_setFile_self]
  · intro q hq
    show lookupFile (setFile (mkdirParents fs c.file).files c.file (a ++ (c.edited ++ b))) q =
      readFile fs q
    rw [lookupFile_setFile_other _ _ _ _ hq]
    rfl

/-- C1 witness: in file content "xyz", anchor "y" occurs once; editing
it to "w" yields "xwz". -/
theorem apply_unique_anchor_replaces_witness :
    countOcc (['x'] ++ (['y'] ++ ['z'])) ['y'] = 1 ∧
    applyOne ⟨[(["a.txt"], ['x', 'y', 'z'])], []⟩ ⟨["a.txt"], ['y'], ['w']⟩ =
      Except.ok (writeFile (mkdirParents ⟨[(["a.txt"], ['x', 'y', 'z'])], []⟩ ["a.txt"])
        ["a.txt"] (['x'] ++ (['w'] ++ ['z']))) :=
  ⟨by decide,
    (apply_unique_anchor_replaces ⟨[(["a.txt"], ['x', 'y', 'z'])], []⟩
      ⟨["a.txt"], ['y'], ['w']⟩ ['x'] ['z'] (by decide) (by decide) (by decide)).1⟩

/-- C2: when the changes before `c` succeed and `c` has a non-empty
`original` absent from its existing target file, the whole batch fails
with an error naming `c`'s file; the error state keeps every file as it
was after the preceding changes (no write for `c`, no change after `c`
attempted — the result does not depend on `post`). -/
theorem apply_failfast (fs fs1 : FS) (pre post : List Change) (c : Change) (t : List Char)
    (hpre : apply fs pre = Except.ok fs1)
    (hne : c.original ≠ [])
    (hread : readFile fs1 c.file = some t)
    (hmiss : containsSub t c.original = false) :
    apply fs (pre ++ c :: post) = Except.error (c.file, mkdirParents fs1 c.file) ∧
    (mkdirParents fs1 c.file).files = fs1.files := by
  refine ⟨?_, rfl⟩
  rw [apply_append, hpre]
  show apply fs1 (c :: post) = Except.error (c.file, mkdirParents fs1 c.file)
  rw [apply_cons, applyOne_some_nonempty fs1 c t hne hread, hmiss,
    if_neg Bool.false_ne_true]

/-- C2 witness: the change writing "hi" into a.txt succeeds, the
mismatching anchor "z" then fails the batch naming a.txt, with the
following change (to b.txt) never attempted. -/
theorem apply_failfast_witness :
    containsSub ['h', 'i'] ['z'] = false ∧
    apply ⟨[], []⟩ ([⟨["a.txt"], [], ['h', 'i']⟩] ++ ⟨["a.txt"], ['z'], ['w']⟩ ::
        [⟨["b.txt"], [], ['q']⟩]) =
      Except.error (["a.txt"], mkdirParents ⟨[(["a.txt"], ['h', 'i'])], []⟩ ["a.txt"]) :=
  ⟨by decide,
    (apply_failfast ⟨[], []⟩ ⟨[(["a.txt"], ['h', 'i'])], []⟩ [⟨["a.txt"], [], ['h', 'i']⟩]
      [⟨["b.txt"], [], ['q']⟩] ⟨["a.txt"], ['z'], ['w']⟩ ['h', 'i']
      (by rfl) (by decide) (by rfl) (by decide)).1⟩

/-- C3 counterexample: the anchor "x" occurs twice in "xx", yet the
operation does not fail — it succeeds and replaces the first
occurrence, writing "yx".  The code never checks for a unique
occurrence. -/
theorem apply_double_occurrence_succeeds :
    countOcc ['x', 'x'] ['x'] = 2 ∧
    applyOne ⟨[(["a.txt"], ['x', 'x'])], []⟩ ⟨["a.txt"], ['x'], ['y']⟩ =
      Except.ok ⟨[(["a.txt"], ['y', 'x'])], []⟩ := by
  exact ⟨by decide, by rfl⟩

/-- C3 amended: for a non-empty `original` applied to an existing file,
the operation fails exactly when `original` does not occur in the
current content at all; when it occurs — once or several times — the
first occurrence is replaced and the write succeeds. -/
theorem apply_anchor_presence (fs : FS) (c : Change) (t : List Char)
    (hne : c.original ≠ [])
    (hread : readFile fs c.file = some t) :
    applyOne fs c =
      if containsSub t c.original then
        Except.ok (writeFile (mkdirParents fs c.file) c.file
          (replaceFirst t c.original c.edited))
      else Except.error (c.file, mkdirParents fs c.file) :=
  applyOne_some_nonempty fs c t hne hread

/-- C3 amended witness: anchor "z" absent from "hi" raises the
mismatch error. -/
theorem apply_anchor_presence_witness :
    (['z'] : List Char) ≠ [] ∧
    applyOne ⟨[(["a.txt"], ['h', 'i'])], []⟩ ⟨["a.txt"], ['z'], ['w']⟩ =
      Except.error (["a.txt"], mkdirParents ⟨[(["a.txt"], ['h', 'i'])], []⟩ ["a.txt"]) :=
  ⟨by decide, by
    rw [apply_anchor_presence ⟨[(["a.txt"], ['h', 'i'])], []⟩ ⟨["a.txt"], ['z'], ['w']⟩
      ['h', 'i'] (by decide) (by rfl)]
    rfl⟩

/-- C6: a change whose target file does not exist creates it with
content exactly `edited` (whatever `original` is), and a change with
empty `original` on an existing file overwrites the whole content with
`edited`. -/
theorem apply_full_write (fs : FS) (c : Change)
    (h : readFile fs c.file = none ∨
      (c.original = [] ∧ ∃ t, readFile fs c.file = some t)) :
    applyOne fs c = Except.ok (writeFile (mkdirParents fs c.file) c.file c.edited) ∧
    readFile (writeFile (mkdirParents fs c.file) c.file c.edited) c.file =
      some c.edited := by
  constructor
  · rcases h with h | ⟨ho, t, ht⟩
    · have h1 : readFile (mkdirParents fs c.file) c.file = none := h
      simp [applyOne, h1]
    · have h1 : readFile (mkdirParents fs c.file) c.file = some t := ht
      simp [applyOne, h1, ho]
  · simp [readFile, writeFile, lookupFile_setFile_self]

/-- C6 witness: applying `{file: "a.txt", original: "", edited: "x"}`
on a filesystem without a.txt creates it with content "x". -/
theorem apply_full_write_witness :
    readFile ⟨[], []⟩ ["a.txt"] = none ∧
    (applyOne ⟨[], []⟩ ⟨["a.txt"], [], ['x']⟩ =
        Except.ok (writeFile (mkdirParents ⟨[], []⟩ ["a.txt"]) ["a.txt"] ['x']) ∧
      readFile (writeFile (mkdirParents ⟨[], []⟩ ["a.txt"]) ["a.txt"] ['x']) ["a.txt"] =
        some ['x']) :=
  ⟨rfl, apply_full_write ⟨[], []⟩ ⟨["a.txt"], [], ['x']⟩ (Or.inl rfl)⟩

/-- C10: the loop body runs `mkdir(parents=True)` before checking the
anchor, so any failing `apply` call has already created every parent
directory of the failing change's file: the error state is exactly a
`mkdirParents` of some intermediate state (file contents untouched by
the failing change), and all parent directories of the offending file
exist in it. -/
theorem apply_error_creates_parent_dirs (fs : FS) (cs : List Change) (f : FilePath)
    (fs' : FS) (h : apply fs cs = Except.error (f, fs')) :
    (∃ fs0, fs' = mkdirParents fs0 f ∧ fs'.files = fs0.files) ∧
    ∀ d, d ∈ parentDirs f → d ∈ fs'.dirs := by
  induction cs generalizing fs with
  | nil => simp [apply] at h
  | cons c cs ih =>
    rw [apply_cons] at h
    cases hA : applyOne fs c with
    | ok fs1 => rw [hA] at h; exact ih fs1 h
    | error e =>
      rw [hA] at h
      simp only [Except.error.injEq] at h
      subst h
      obtain ⟨h1, h2⟩ := applyOne_error_inv fs c f fs' hA
      subst h1; subst h2
      exact ⟨⟨fs, rfl, rfl⟩, fun d hd => mem_dirs_mkdirParents _ _ _ hd⟩

/-- C10 witness: a mismatch on d/sub/f.txt still leaves directories d
and d/sub created in the error state. -/
theorem apply_error_creates_parent_dirs_witness :
    apply ⟨[(["d", "sub", "f.txt"], ['h', 'i'])], []⟩ [⟨["d", "sub", "f.txt"], ['z'], ['w']⟩] =
      Except.error (["d", "sub", "f.txt"],
        ⟨[(["d", "sub", "f.txt"], ['h', 'i'])], [["d"], ["d", "sub"]]⟩) ∧
    ["d", "sub"] ∈ (FS.mk [(["d", "sub", "f.txt"], ['h', 'i'])] [["d"], ["d", "sub"]]).dirs :=
  ⟨by rfl,
    (apply_error_creates_parent_dirs ⟨[(["d", "sub", "f.txt"], ['h', 'i'])], []⟩
      [⟨["d", "sub", "f.txt"], ['z'], ['w']⟩] ["d", "sub", "f.txt"]
      ⟨[(["d", "sub", "f.txt"], ['h', 'i'])], [["d"], ["d", "sub"]]⟩
      (by rfl)).2 ["d", "sub"] (by decide)⟩

/-! ### Helper lemmas about `extract_json` -/

theorem scanBack_succ (text : List Char) (s k : Nat) :
    scanBack text s (k + 1) =
      if text.getD (s + k + 1) ' ' = '}' ∧
          jsonValid (slice text s (s + k + 2)) = true then
        some (slice text s (s + k + 2))
      else scanBack text s k := rfl

/-- When exactly one candidate ending index closes a valid JSON slice
starting at `s`, the backward scan returns that slice. -/
theorem scanBack_unique (text : List Char) (s j : Nat) (hsj : s < j)
    (hjc : text.getD j ' ' = '}')
    (hjv : jsonValid (slice text s (j + 1)) = true)
    (huniq : ∀ i < text.length, text.getD i ' ' = '}' →
      jsonValid (slice text s (i + 1)) = true → i = j) :
    ∀ k, s + k < text.length → j ≤ s + k →
      scanBack text s k = some (slice text s (j + 1)) := by
  intro k
  induction k with
  | zero => intro _ hj; omega
  | succ k ih =>
    intro hlen hj
    by_cases hij : s + k + 1 = j
    · rw [scanBack_succ, show s + k + 1 = j from hij, show s + k + 2 = j + 1 by omega,
        if_pos ⟨hjc, hjv⟩]
    · have hcond : ¬ (text.getD (s + k + 1) ' ' = '}' ∧
          jsonValid (slice text s (s + k + 2)) = true) := by
        rintro ⟨h1, h2⟩
        exact hij (huniq (s + k + 1) (by omega) h1 h2)
      rw [scanBack_succ, if_neg hcond]
      exact ih (by omega) (by omega)

/-- When some candidate ending index closes a valid JSON slice starting
at `s`, the backward scan succeeds, and what it returns is valid JSON. -/
theorem scanBack_some_of_exists (text : List Char) (s : Nat) :
    ∀ k, (∃ i, s < i ∧ i ≤ s + k ∧ text.getD i ' ' = '}' ∧
      jsonValid (slice text s (i + 1)) = true) →
      ∃ r, scanBack text s k = some r ∧ jsonValid r = true := by
  intro k
  induction k with
  | zero => rintro ⟨i, h1, h2, _, _⟩; omega
  | succ k ih =>
    rintro ⟨i, h1, h2, h3, h4⟩
    by_cases hcond : text.getD (s + k + 1) ' ' = '}' ∧
        jsonValid (slice text s (s + k + 2)) = true
    · exact ⟨_, by rw [scanBack_succ, if_pos hcond], hcond.2⟩
    · rw [scanBack_succ, if_neg hcond]
      apply ih
      by_cases hi : i = s + k + 1
      · exfalso; apply hcond; subst hi; exact ⟨h3, h4⟩
      · exact ⟨i, h1, by omega, h3, h4⟩

theorem extract_json_eq_some (text : List Char) (s : Nat)
    (hs : text.findIdx? (fun c => c = '{') = some s) :
    extract_json text =
      match scanBack text s (text.length - 1 - s) with
      | some cand => cand
      | none =>
        match lastIdxOf text '}' with
        | some r => slice text s (r + 1)
        | none => text.drop s := by
  simp [extract_json, hs]

/-! ### Claims C4 and C5 (`extract_json`) -/

/-- C4 counterexample: the text "a { b } c {} d" contains exactly one
valid JSON object (the slice "{}"), surrounded by prose — but the prose
before it contains a `{`, the backward scan from that first `{` never
finds valid JSON, and the fallback returns "{ b } c {}", which does not
parse as JSON at all, let alone to that object. -/
theorem extract_json_misses_unique_object :
    countValidObjSlices
      ['a', ' ', '{', ' ', 'b', ' ', '}', ' ', 'c', ' ', '{', '}', ' ', 'd'] = 1 ∧
    extract_json
      ['a', ' ', '{', ' ', 'b', ' ', '}', ' ', 'c', ' ', '{', '}', ' ', 'd'] =
      ['{', ' ', 'b', ' ', '}', ' ', 'c', ' ', '{', '}'] ∧
    jsonValid (extract_json
      ['a', ' ', '{', ' ', 'b', ' ', '}', ' ', 'c', ' ', '{', '}', ' ', 'd']) = false := by
  decide

/-- C4 amended: for every raw output whose first `{` opens the unique
brace-closed slice that parses as valid JSON (no stray `{` in preceding
prose), `extract_json` returns exactly that slice — which is valid
JSON. -/
theorem extract_json_unique_object (text : List Char) (s j : Nat)
    (hs : text.findIdx? (fun c => c = '{') = some s)
    (hsj : s < j) (hjlen : j < text.length)
    (hjc : text.getD j ' ' = '}')
    (hjv : jsonValid (slice text s (j + 1)) = true)
    (huniq : ∀ i < text.length, text.getD i ' ' = '}' →
      jsonValid (slice text s (i + 1)) = true → i = j) :
    extract_json text = slice text s (j + 1) ∧
    jsonValid (extract_json text) = true := by
  have hscan : scanBack text s (text.length - 1 - s) = some (slice text s (j + 1)) :=
    scanBack_unique text s j hsj hjc hjv huniq (text.length - 1 - s)
      (by omega) (by omega)
  constructor
  · rw [extract_json_eq_some text s hs, hscan]
  · rw [extract_json_eq_some text s hs, hscan]
    exact hjv

/-- C4 witness: on "x {} y" the unique object slice "{}" starts at the
first `{` and is returned. -/
theorem extract_json_unique_object_witness :
    (['x', ' ', '{', '}', ' ', 'y'] : List Char).findIdx? (fun c => c = '{') = some 2 ∧
    extract_json ['x', ' ', '{', '}', ' ', 'y'] =
      slice ['x', ' ', '{', '}', ' ', 'y'] 2 (3 + 1) :=
  ⟨by decide,
    (extract_json_unique_object ['x', ' ', '{', '}', ' ', 'y'] 2 3 (by decide)
      (by omega) (by decide) (by decide) (by decide) (by decide)).1⟩

/-- C5 counterexample: on "{a}" `extract_json` returns, via its
fallback, the brace-delimited slice of the input from the first `{`
(index 0) to a `}` (index 2) — and that returned text is not valid
JSON, refuting the claim that such returns always parse. -/
theorem extract_json_fallback_invalid :
    extract_json ['{', 'a', '}'] = ['{', 'a', '}'] ∧
    (['{', 'a', '}'] : List Char).findIdx? (fun c => c = '{') = some 0 ∧
    extract_json ['{', 'a', '}'] = slice ['{', 'a', '}'] 0 (2 + 1) ∧
    (['{', 'a', '}'] : List Char).getD 2 ' ' = '}' ∧
    jsonValid (extract_json ['{', 'a', '}']) = false := by
  decide

/-- C5 amended: whenever some slice from the first `{` to a later `}`
parses as valid JSON — i.e. whenever the backward scan (rather than the
final fallback) produces the result — the text `extract_json` returns
is valid JSON. -/
theorem extract_json_valid_of_candidate (text : List Char) (s i : Nat)
    (hs : text.findIdx? (fun c => c = '{') = some s)
    (hsi : s < i) (hilen : i < text.length)
    (hic : text.getD i ' ' = '}')
    (hiv : jsonValid (slice text s (i + 1)) = true) :
    jsonValid (extract_json text) = true := by
  obtain ⟨r, hr, hv⟩ := scanBack_some_of_exists text s (text.length - 1 - s)
    ⟨i, hsi, by omega, hic, hiv⟩
  rw [extract_json_eq_some text s hs, hr]
  exact hv

/-- C5 amended witness: on "a{}" the scan finds the valid candidate
"{}" and the returned text is valid JSON. -/
theorem extract_json_valid_of_candidate_witness :
    (['a', '{', '}'] : List Char).findIdx? (fun c => c = '{') = some 1 ∧
    jsonValid (extract_json ['a', '{', '}']) = true :=
  ⟨by decide,
    extract_json_valid_of_candidate ['a', '{', '}'] 1 2 (by decide) (by omega)
      (by decide) (by decide) (by decide)⟩

/-! ### Claims C7, C8, C9 (`handle`) -/

/-- C7 counterexample: with stored run policy "never" and mission mode
active, the accept branch skips every proposed command — the policy
check for "never" comes first and overrides mission mode, so it is not
the case that all commands execute regardless of stored policy. -/
theorem mission_never_policy_skips :
    commandExecMode "never" false true = ExecMode.skipAll ∧
    executedCommands (commandExecMode "never" false true) (fun _ => true)
      [['l', 's']] = [] ∧
    ([] : List (List Char)) ≠ [['l', 's']] := by
  refine ⟨rfl, rfl, by decide⟩

/-- C7 amended: in mission mode an accepted proposal's commands are all
executed sequentially with output captured, for every stored run policy
except "never"; policy "never" skips execution even in mission mode. -/
theorem mission_runs_commands_unless_never (policy : String) (argsYes : Bool)
    (approve : List Char → Bool) (cmds : List (List Char))
    (h : policy ≠ "never") :
    commandExecMode policy argsYes true = ExecMode.runAllCaptured ∧
    executedCommands (commandExecMode policy argsYes true) approve cmds = cmds := by
  have h1 : commandExecMode policy argsYes true = ExecMode.runAllCaptured := by
    unfold commandExecMode
    rw [if_neg h, if_pos (Or.inr (Or.inr rfl))]
  exact ⟨h1, by rw [h1]; rfl⟩

/-- C7 amended witness: policy "ask" in mission mode runs the proposed
command without consulting the per-command prompt. -/
theorem mission_runs_commands_unless_never_witness :
    ("ask" : String) ≠ "never" ∧
    executedCommands (commandExecMode "ask" false true) (fun _ => false)
      [['l', 's']] = [['l', 's']] :=
  ⟨by decide,
    (mission_runs_commands_unless_never "ask" false (fun _ => false)
      [['l', 's']] (by decide)).2⟩

/-- C8 counterexample: outside mission and plan-only mode, a response
requesting files while visibility is disabled is simply ignored — the
dispatch falls through to the interaction loop (no permission notice,
no new THINKING cycle), so the claim fails without the mission/plan
gate. -/
theorem denied_request_ignored_outside_mission :
    handleRequests false false false false (fun q => q) (fun q => q) (fun q => q)
      ⟨[], []⟩ ['h', 'i'] ⟨[["x.txt"]], none, none, none⟩ = (Outcome.proceed, []) ∧
    Outcome.proceed ≠
      Outcome.rethink (['h', 'i'] ++ visDeniedNotice [["x.txt"]]) none :=
  ⟨rfl, fun hcon => Outcome.noConfusion hcon⟩

/-- C8 amended: during mission or plan-only mode, a response requesting
files while visibility is disabled, or web search/browse while web
browsing is disabled, never hard-fails: no file-read or web effect is
performed and the dispatch recurses into a new THINKING cycle whose
instruction is the original instruction plus the permission-denied
notice. -/
theorem denied_requests_rethink (vis webAllowed mission planOnly : Bool)
    (ws wb sp : List Char → List Char) (fs : FS) (text : List Char)
    (r : AgentResponse) (hmp : (mission || planOnly) = true) :
    (r.request_files ≠ [] → vis = false →
      handleRequests vis webAllowed mission planOnly ws wb sp fs text r =
        (Outcome.rethink (text ++ visDeniedNotice r.request_files) none, [])) ∧
    (r.request_files = [] → (r.web_search.isSome || r.web_browse.isSome) = true →
      webAllowed = false →
      handleRequests vis webAllowed mission planOnly ws wb sp fs text r =
        (Outcome.rethink (text ++ webDeniedNotice) none, [])) := by
  constructor
  · intro h1 h2
    subst h2
    have hne : r.request_files.isEmpty = false := by
      cases hh : r.request_files with
      | nil => exact absurd hh h1
      | cons x xs => rfl
    simp [handleRequests, hne, hmp]
  · intro h1 h2 h3
    subst h3
    simp [handleRequests, h1, h2, hmp]

/-- C8 amended witness: in mission mode with visibility disabled, a
request for "x.txt" produces the THINKING continuation with the
permission-denied notice and performs no file read. -/
theorem denied_requests_rethink_witness :
    ((true || false) = true) ∧
    handleRequests false true true false (fun q => q) (fun q => q) (fun q => q)
      ⟨[], []⟩ ['h', 'i'] ⟨[["x.txt"]], none, none, none⟩ =
      (Outcome.rethink (['h', 'i'] ++ visDeniedNotice [["x.txt"]]) none, []) :=
  ⟨rfl,
    (denied_requests_rethink false true true false (fun q => q) (fun q => q)
      (fun q => q) ⟨[], []⟩ ['h', 'i'] ⟨[["x.txt"]], none, none, none⟩ rfl).1
      (by decide) rfl⟩

theorem missionActive_succ (plans : Nat → List Char) (n : Nat) :
    missionActive plans (n + 1) =
      (missionActive plans n && !hasCompletionMarker (plans n)) := rfl

/-- C9 counterexample: no step bound `B` halts mission mode on
marker-free response sequences — the constantly-empty plan sequence
never contains the completion marker, yet the loop is still active
after any number of steps. -/
theorem no_mission_step_bound :
    ¬ ∃ B : Nat, ∀ plans : Nat → List Char,
      (∀ n, hasCompletionMarker (plans n) = false) →
      missionActive plans B = false := by
  rintro ⟨B, hB⟩
  have hm : hasCompletionMarker ([] : List Char) = false := by decide
  have hrun : ∀ n, missionActive (fun _ => ([] : List Char)) n = true := by
    intro n
    induction n with
    | zero => rfl
    | succ n ih => simp [missionActive_succ, ih, hm]
  have hfalse := hB (fun _ => []) (fun _ => hm)
  rw [hrun B] at hfalse
  exact absurd hfalse (by simp)

/-- C9 amended: mission mode has no implementation-imposed step bound:
for every response sequence whose plans never contain the completion
marker, the continuation loop is still active after any number of
steps — it terminates only via the completion-marker check (or user
interruption, outside this model). -/
theorem mission_loop_unbounded (plans : Nat → List Char)
    (h : ∀ n, hasCompletionMarker (plans n) = false) (n : Nat) :
    missionActive plans n = true := by
  induction n with
  | zero => rfl
  | succ n ih =>
    rw [missionActive_succ, ih, h n]
    rfl

/-- C9 amended witness: with constantly-empty plans the loop is still
active after five steps. -/
theorem mission_loop_unbounded_witness :
    hasCompletionMarker ((fun _ => ([] : List Char)) 0) = false ∧
    missionActive (fun _ => ([] : List Char)) 5 = true :=
  ⟨by decide,
    mission_loop_unbounded (fun _ => [])
      (fun _ => (by decide : hasCompletionMarker ([] : List Char) = false)) 5⟩

end AgentCli
